import Mathlib

/-!
Verification development for a structured-covariance multivariate normal
distribution (`gpytorch/distributions/multivariate_normal.py`) and an
approximate marginal log likelihood objective
(`gpytorch/mlls/_approximate_mll.py`).

Torch tensor shapes are modelled as `List ℕ` (`Shape`), multi-indices as
`List ℕ` aligned with the shape.  Python negative slicing `s[-k:]` is
modelled by `lastDims`.  Numeric routines are modelled over a field
(`ℝ` where logarithms appear) in place of floating point.
-/

abbrev Shape := List Nat

/-- Python slicing `s[-k:]` on a torch `Size`: the last `k` dimensions
(the whole shape when `k ≥ s.length`). -/
def lastDims (s : Shape) (k : Nat) : Shape := s.drop (s.length - k)

/-- The event shape of the distribution, `self.loc.shape[-1:]`
(multivariate_normal.py line 41; torch uses the same convention on the
dense path). -/
def eventShape (locShape : Shape) : Shape := lastDims locShape 1

/-- Modelled from the spec: torch-style broadcasting of one aligned pair
of dimension sizes (the repository's `_mul_broadcast_shape` helper is not
under `src/`; the spec prescribes standard broadcast semantics, failing
on incompatible shapes). -/
def broadcastDim (a b : Nat) : Option Nat :=
  if a = 1 then some b
  else if b = 1 then some a
  else if a = b then some a else none

/-- Broadcast two reversed shapes (least-significant dimension first;
a missing dimension behaves as size 1). -/
def broadcastRev : List Nat → List Nat → Option (List Nat)
  | [], ys => some ys
  | xs, [] => some xs
  | x :: xs, y :: ys => do
    let d ← broadcastDim x y
    let rest ← broadcastRev xs ys
    pure (d :: rest)

/-- Modelled from the spec: `_mul_broadcast_shape` — right-aligned torch
broadcasting of two shapes; `none` models the `ShapeMismatch` failure. -/
def broadcastShape (a b : Shape) : Option Shape :=
  (broadcastRev a.reverse b.reverse).map List.reverse

/-- The guard of `_MultivariateNormalBase.rsample` on explicitly supplied
base samples (multivariate_normal.py lines 146-150):
`self.loc.shape != base_samples.shape[-self.loc.dim():]` raises a
`RuntimeError` citing the expected (`self.loc.shape`) and actual shapes.
Returns `true` when no error is raised. -/
def rsampleBaseCheckOK (locShape bsShape : Shape) : Bool :=
  lastDims bsShape locShape.length == locShape

/-- The inferred sample shape (multivariate_normal.py line 153):
`base_samples.shape[: base_samples.dim() - self.loc.dim()]`. -/
def inferredSampleShape (locShape bsShape : Shape) : Shape :=
  bsShape.take (bsShape.length - locShape.length)

/-- Modelled from the spec: the structured operator's
`zero_mean_mvn_samples(num)` returns `num` batched zero-mean draws, of
shape `[num] ++ covar_batch_shape ++ [event_dim]`. -/
def zeroMeanSamplesShape (covarShape : Shape) (num : Nat) : Shape :=
  num :: covarShape.dropLast

/-- Shape behaviour of `rsample` with `base_samples=None`
(multivariate_normal.py lines 136-142): draw
`num_samples = sample_shape.numel() or 1` zero-mean samples, add
`self.loc.unsqueeze(0)` (broadcasting), then
`view(sample_shape + self.loc.shape)`, which requires the element counts
to agree.  `none` models a raised error. -/
def rsampleNoBaseShape (locShape covarShape : Shape) (S : Shape) : Option Shape :=
  let numSamples := if S.prod = 0 then 1 else S.prod
  match broadcastShape (zeroMeanSamplesShape covarShape numSamples) (1 :: locShape) with
  | none => none
  | some b => if b.prod = (S ++ locShape).prod then some (S ++ locShape) else none

/-- Shape behaviour of `rsample` with explicit `base_samples`
(multivariate_normal.py lines 144-171): the trailing-shape guard, the
inferred sample shape, `view(-1, *self.loc.shape)` (which needs a nonzero
mean element count to infer the -1 dimension), the root-rank adjustment
(truncate when the root has fewer columns than base-sample rows, raise
when it has more), and the final `view(sample_shape + self.loc.shape)`.
The root factor is modelled by its column count `rootCols`; the model
covers root factors whose batch dimensions broadcast inside the mean's
batch dimensions.  `none` models a raised error. -/
def rsampleWithBaseShape (locShape : Shape) (rootCols : Nat) (bsShape : Shape) : Option Shape :=
  if rsampleBaseCheckOK locShape bsShape then
    match locShape.getLast? with
    | none => none
    | some n =>
      if locShape.prod = 0 then none
      else if n < rootCols then none
      else some (inferredSampleShape locShape bsShape ++ locShape)
  else none

/-- A (non-batched) multivariate normal with event dimension `d`: the
`loc` vector and the covariance matrix held by the distribution.  The
scalar field `α` stands in for floating point. -/
structure GaussianMVN (α : Type) (d : Nat) where
  loc : Fin d → α
  covar : Matrix (Fin d) (Fin d) α

/-- Result of an arithmetic operator that may return `self` unchanged
(Python object identity, `return self`) or construct a fresh
distribution. -/
inductive ScaleResult (α : Type) (d : Nat) where
  | same : ScaleResult α d
  | fresh : GaussianMVN α d → ScaleResult α d

/-- The distribution an operator call on `A` evaluates to: `same` means
the very instance `A` was returned. -/
def ScaleResult.toMVN {α : Type} {d : Nat} (A : GaussianMVN α d) :
    ScaleResult α d → GaussianMVN α d
  | .same => A
  | .fresh B => B

/-- Scalar branch of `_MultivariateNormalBase.__mul__`
(multivariate_normal.py lines 270-272): `other == 1` returns `self`,
otherwise a fresh instance with mean scaled by `other` and covariance
scaled by `other ** 2`. -/
def mvnMulScalar {α : Type} [Field α] [DecidableEq α] {d : Nat}
    (A : GaussianMVN α d) (c : α) : ScaleResult α d :=
  if c = 1 then .same
  else .fresh ⟨fun i => A.loc i * c, fun i j => A.covar i j * c ^ 2⟩

/-- A Python operand of `__mul__`: an `int`, a `float`, or any
non-scalar object (a tensor, another distribution, ...). -/
inductive PyVal (α : Type) where
  | int : Int → PyVal α
  | float : α → PyVal α
  | nonScalar : PyVal α

/-- Model of `_MultivariateNormalBase.__mul__` (multivariate_normal.py lines
267-272), including the `isinstance` guard that rejects non-scalar
operands with `RuntimeError("Can only multiply by scalars")`. -/
def mvnMulOp {α : Type} [Field α] [DecidableEq α] {d : Nat}
    (A : GaussianMVN α d) : PyVal α → Except String (ScaleResult α d)
  | .int n => .ok (mvnMulScalar A (n : α))
  | .float x => .ok (mvnMulScalar A x)
  | .nonScalar => .error "Can only multiply by scalars"

/-- Model of `_MultivariateNormalBase.__truediv__` (multivariate_normal.py lines
274-275): `self.__mul__(1.0 / other)`. -/
def mvnDiv {α : Type} [Field α] [DecidableEq α] {d : Nat}
    (A : GaussianMVN α d) (c : α) : ScaleResult α d :=
  mvnMulScalar A (1 / c)

/-- Scalar branch of `_MultivariateNormalBase.__add__`
(multivariate_normal.py line 258): fresh instance with shifted mean and
unchanged covariance. -/
def mvnAddScalar {α : Type} [Field α] {d : Nat}
    (A : GaussianMVN α d) (c : α) : GaussianMVN α d :=
  ⟨fun i => A.loc i + c, A.covar⟩

/-- Model of `_MultivariateNormalBase.__radd__` (multivariate_normal.py lines
262-265): `other == 0` returns `self`, otherwise delegates to
`__add__`. -/
def mvnRadd {α : Type} [Field α] [DecidableEq α] {d : Nat}
    (A : GaussianMVN α d) (c : α) : ScaleResult α d :=
  if c = 0 then .same else .fresh (mvnAddScalar A c)

/-- Construction-time state of `_ApproximateMarginalLogLikelihood`
(_approximate_mll.py lines 30-34). -/
structure ELBOState (α : Type) where
  num_data : α
  beta : α
  combine_terms : Bool

/-- Return value of the ELBO `forward`: a combined scalar, a 3-tuple, or
a 4-tuple. -/
inductive ELBOOutput (α : Type) where
  | combined : α → ELBOOutput α
  | parts3 : α → α → α → ELBOOutput α
  | parts4 : α → α → α → α → ELBOOutput α
deriving DecidableEq

/-- Model of `_ApproximateMarginalLogLikelihood.forward` (_approximate_mll.py
lines 47-89) in the scalar case (`log_likelihood.numel() == 1`, where the
shape-reconciliation step only sums `kl` to the same scalar).  `llTerm`
is the value of the abstract `_log_likelihood_term` hook, `klRaw` the
value of `_kl_divergence`, `addedLosses` the values of the model's
registered added loss terms (line 74), `priorLogProbs` the values
`prior.log_prob(closure()).sum()` of the named priors (line 80). -/
def elboForward {α : Type} [Field α] (st : ELBOState α)
    (llTerm klRaw numBatch : α) (addedLosses priorLogProbs : List α) : ELBOOutput α :=
  let ll := llTerm / numBatch
  let kl := klRaw / (st.num_data / st.beta)
  let added := addedLosses.sum
  let hadAdded := !addedLosses.isEmpty
  let logPrior := (priorLogProbs.map (fun p => p / st.num_data)).sum
  if st.combine_terms then ELBOOutput.combined (ll - kl + logPrior - added)
  else if hadAdded then ELBOOutput.parts4 ll kl (logPrior / st.num_data) added
  else ELBOOutput.parts3 ll kl (logPrior / st.num_data)

/-- Reparameterisation core of `rsample` with explicit base samples
(multivariate_normal.py lines 160-167) for a 1-D mean: after the permute
the base samples form an `n × N` matrix (`n` the event dimension, rows =
`base_samples.shape[-2]`), the root factor `R` an `n × k` matrix (`k =
covar_root.shape[-1]`).  When `k < n` the trailing rows of the base
samples are sliced off (`base_samples[..., :covar_root.shape[-1], :]`);
when `k > n` a `RuntimeError("Incompatible dimension")` is raised
(`none`); then `covar_root.matmul(base_samples) + loc.unsqueeze(-1)` is
formed.  The `k < n` and `k = n` branches are one case here because
slicing to all `k = n` rows is the identity. -/
def rsampleReparamCore {α : Type} [CommRing α] {n k N : Nat}
    (loc : Fin n → α) (R : Matrix (Fin n) (Fin k) α)
    (base : Matrix (Fin n) (Fin N) α) : Option (Matrix (Fin n) (Fin N) α) :=
  if h : n < k then none
  else some (fun i j =>
    (∑ l : Fin k, R i l * base (Fin.castLE (Nat.not_lt.mp h) l) j) + loc i)

/-- Torch `Tensor.expand` compatibility on reversed shapes (least
significant dimension first): every original dimension must equal the
aligned target dimension or be 1, and the target must have at least as
many dimensions. -/
def expandOKRev : List Nat → List Nat → Bool
  | [], _ => true
  | _ :: _, [] => false
  | o :: os, t :: ts => (o == t || o == 1) && expandOKRev os ts

/-- Torch `Tensor.expand` compatibility, right-aligned. -/
def expandOK (orig target : Shape) : Bool :=
  expandOKRev orig.reverse target.reverse

/-- Modelled from the spec: the structured operator's fused
`inv_quad_logdet(inv_quad_rhs=rhs, logdet=True)` — one call returning
both the inverse-quadratic form `tr(rhsᵀ Σ⁻¹ rhs)` (the sum of the
quadratic forms of the columns of `rhs`) and `log det Σ`. -/
noncomputable def inv_quad_logdet {d : Nat} {m : Type} [Fintype m]
    (S : Matrix (Fin d) (Fin d) ℝ) (rhs : Matrix (Fin d) m ℝ) : ℝ × ℝ :=
  ((rhs.transpose * S⁻¹ * rhs).trace, Real.log S.det)

/-- Modelled from the spec: the dense reference path
(`super().log_prob`) — the standard multivariate normal log-density
`-0.5 (diffᵀ Σ⁻¹ diff + log det Σ + d log 2π)`. -/
noncomputable def denseLogProb {d : Nat} (mean : Fin d → ℝ)
    (S : Matrix (Fin d) (Fin d) ℝ) (value : Fin d → ℝ) : ℝ :=
  -0.5 * (Matrix.dotProduct (fun i => value i - mean i)
      (S⁻¹.mulVec (fun i => value i - mean i))
    + Real.log S.det + d * Real.log (2 * Real.pi))

/-- Model of `_MultivariateNormalBase.log_prob` (multivariate_normal.py lines
107-132) for a value of the distribution's own shape (the batched
reconciliation of lines 117-126 is `logProbReconcile` below): when the
global `fast_computations.log_prob` setting is off, delegate to the
dense base formula; otherwise form `diff = value - mean`, make one fused
`inv_quad_logdet` call with right-hand side `diff.unsqueeze(-1)` and
return `-0.5 * sum([inv_quad, logdet, d * log(2π)])`. -/
noncomputable def logProbModel {d : Nat} (fastOff : Bool) (mean : Fin d → ℝ)
    (S : Matrix (Fin d) (Fin d) ℝ) (value : Fin d → ℝ) : ℝ :=
  if fastOff then denseLogProb mean S value
  else
    let diff := fun i => value i - mean i
    match inv_quad_logdet S (Matrix.col (Fin 1) diff) with
    | (inv_quad, logdet) => -0.5 * (inv_quad + logdet + d * Real.log (2 * Real.pi))

/-- Batch reconciliation of `kl_mvn_mvn` (multivariate_normal.py lines
294-298): the output shape is the broadcast of the two batch shapes and
each distribution whose batch shape differs is expanded to it. -/
def klBatchShapes (pBatch qBatch : Shape) : Option (Shape × Shape) :=
  match broadcastShape pBatch qBatch with
  | none => none
  | some o => some (o, o)

/-- Model of `kl_mvn_mvn` (multivariate_normal.py lines 292-318) for one
broadcast-reconciled pair: mean difference `p_mean - q_mean`, right-hand
side `torch.cat([mean_diffs.unsqueeze(-1), root_p_covar], -1)` (columns
indexed by `Fin 1 ⊕ Fin k`), `logdet_p = p_covar.logdet()`, one fused
`inv_quad_logdet` call against `q`'s operator, and
`0.5 * sum([logdet_q, logdet_p * (-1), trace_plus_inv_quad, -float(d)])`.
The root factor `Rp` returned by the external structured-operator
library's `root_decomposition` enters as a parameter. -/
noncomputable def klMvnMvn {d k : Nat} (p q : GaussianMVN ℝ d)
    (Rp : Matrix (Fin d) (Fin k) ℝ) : ℝ :=
  let meanDiffs : Fin d → ℝ := fun i => p.loc i - q.loc i
  let rhs : Matrix (Fin d) (Fin 1 ⊕ Fin k) ℝ :=
    Matrix.fromColumns (Matrix.col (Fin 1) meanDiffs) Rp
  match inv_quad_logdet q.covar rhs, Real.log p.covar.det with
  | (trace_plus_inv_quad, logdet_q), logdet_p =>
    0.5 * (logdet_q + logdet_p * (-1) + trace_plus_inv_quad + (-(d : ℝ)))

/-- A torch tensor (also a structured operator viewed through its
entries): its shape together with an entry function on multi-indices
aligned with the shape.  Only indices valid for the shape are
meaningful. -/
structure Tensor where
  shape : Shape
  data : List Nat → ℝ

/-- Validity of a multi-index for a shape: componentwise below the
dimension sizes (and of the same length). -/
def IdxOK (s : Shape) (idx : List Nat) : Prop :=
  List.Forall₂ (fun i n => i < n) idx s

/-- Every valid entry of `t2` is an entry of `t` at some valid index:
the operation only repeats or broadcasts existing values, it never
produces new ones. -/
def EntriesFrom (t2 t : Tensor) : Prop :=
  ∀ idx, IdxOK t2.shape idx → ∃ idx2, IdxOK t.shape idx2 ∧ t2.data idx = t.data idx2

/-- Index mapping of torch `expand` on reversed shape/index lists: where
the original dimension is 1 the index is clamped to 0, elsewhere it is
kept; excess leading target dimensions are dropped. -/
def expandMapRev : List Nat → List Nat → List Nat
  | [], _ => []
  | _ :: _, [] => []
  | o :: os, i :: idx => (if o = 1 then 0 else i) :: expandMapRev os idx

/-- Index mapping of torch `expand`, right-aligned. -/
def expandMap (orig : Shape) (idx : List Nat) : List Nat :=
  (expandMapRev orig.reverse idx.reverse).reverse

/-- Torch `Tensor.expand`: succeeds iff each original dimension equals
the aligned target dimension or is 1 (`none` models the raised error);
each result entry is the original entry at the broadcast-mapped
index. -/
def Tensor.expand (t : Tensor) (s : Shape) : Option Tensor :=
  if expandOK t.shape s then some ⟨s, fun idx => t.data (expandMap t.shape idx)⟩
  else none

/-- Result shape of torch `Tensor.repeat` on reversed factor/shape
lists: the factors list may be longer, missing original dimensions act
as size 1. -/
def repeatShapeRev : List Nat → List Nat → List Nat
  | [], _ => []
  | f :: fs, [] => f :: repeatShapeRev fs []
  | f :: fs, o :: os => f * o :: repeatShapeRev fs os

/-- Index mapping of torch `Tensor.repeat` on reversed shape/index
lists: each component is reduced modulo the original dimension; excess
leading dimensions are dropped. -/
def repeatMapRev : List Nat → List Nat → List Nat
  | [], _ => []
  | _ :: _, [] => []
  | o :: os, i :: idx => i % o :: repeatMapRev os idx

/-- Torch `Tensor.repeat` (also the structured operator's `repeat`,
which the spec describes as tiling the represented batch of matrices):
requires at least as many factors as dimensions; the result tiles the
original entries. -/
def Tensor.repeatT (t : Tensor) (factors : List Nat) : Option Tensor :=
  if t.shape.length ≤ factors.length then
    some ⟨(repeatShapeRev factors.reverse t.shape.reverse).reverse,
          fun idx => t.data ((repeatMapRev t.shape.reverse idx.reverse).reverse)⟩
  else none

/-- Batch reconciliation of `log_prob` (multivariate_normal.py lines
117-126).  `diff` has shape `batch ++ [n]`; the covariance operator is
modelled by a tensor whose batch shape is `covar.shape[:-2]`.  When the
batch shapes agree nothing happens; when `diff` has the smaller batch
rank it is expanded to `covar.shape[:-1]`; otherwise the covariance is
repeated with per-dimension factor `diff_size // covar_size` (Python
floor division) against the 1-padded covariance batch shape, with
factors 1, 1 for the two matrix dimensions. -/
def logProbReconcile (diff covar : Tensor) : Option (Tensor × Tensor) :=
  if diff.shape.dropLast == covar.shape.dropLast.dropLast then some (diff, covar)
  else if diff.shape.dropLast.length < covar.shape.dropLast.dropLast.length then
    (diff.expand covar.shape.dropLast).map (fun d2 => (d2, covar))
  else
    (covar.repeatT (List.zipWith (fun ds cs => ds / cs) diff.shape.dropLast
        (List.replicate (diff.shape.length + 1 - covar.shape.length) 1 ++
          covar.shape.dropLast.dropLast) ++ [1, 1])).map (fun c2 => (diff, c2))

/-- Expand failure kinds: a dense-mode instance has no `_covar`
attribute at all (`AttributeError`), while an incompatible target shape
raises the shape error inside the tensor `expand`. -/
inductive ExpandErr where
  | attrErr : ExpandErr
  | shapeMismatch : ExpandErr
deriving DecidableEq

/-- The fields of `_MultivariateNormalBase` that `expand` reads, as
`__init__` sets them (multivariate_normal.py lines 30-45): `islazy`
records whether the mean or the covariance is a structured (lazy)
operator; only the structured branch stores the `_covar` attribute
(line 37) — the dense branch delegates to the torch base constructor,
which never sets it. -/
structure MVNObj where
  islazy : Bool
  loc : Tensor
  covarAttr : Option Tensor

/-- Model of `_MultivariateNormalBase.__init__` (lines 30-45), restricted to the
fields `expand` reads. -/
def mvnInit (mean covariance : Tensor) (isLazyInput : Bool) : MVNObj :=
  if isLazyInput then ⟨true, mean, some covariance⟩ else ⟨false, mean, none⟩

/-- Model of `_MultivariateNormalBase.expand` (multivariate_normal.py
lines 62-66), in source order: line 63 first computes
`new_loc = self.loc.expand(batch_size + self.loc.shape[-1:])` (a shape
error when the target is not expand-compatible), line 64 then reads
`self._covar` — an `AttributeError` on a dense-mode instance, which
never stored it — and expands it to
`batch_size + self._covar.shape[-2:]`, and line 65 builds a new
instance of the same class. -/
def mvnExpand (m : MVNObj) (batchSize : Shape) : Except ExpandErr MVNObj :=
  match m.loc.expand (batchSize ++ lastDims m.loc.shape 1) with
  | none => Except.error ExpandErr.shapeMismatch
  | some l2 =>
    match m.covarAttr with
    | none => Except.error ExpandErr.attrErr
    | some c =>
      match c.expand (batchSize ++ lastDims c.shape 2) with
      | some c2 => Except.ok (mvnInit l2 c2 true)
      | none => Except.error ExpandErr.shapeMismatch

/-- C9: multiplying a Gaussian by a scalar `c` (int or float) scales the
mean by `c` and the covariance by `c²`; division by `c` is
multiplication by `1/c` (so the mean is divided by `c` and the
covariance by `c²`); multiplying by a non-scalar operand fails with the
unsupported-operand error. -/
theorem mul_div_scalar_claim {α : Type} [Field α] [DecidableEq α] {d : Nat}
    (A : GaussianMVN α d) (c : α) (n : Int) :
    (∀ i, ((mvnMulScalar A c).toMVN A).loc i = A.loc i * c) ∧
    (∀ i j, ((mvnMulScalar A c).toMVN A).covar i j = A.covar i j * c ^ 2) ∧
    mvnDiv A c = mvnMulScalar A (1 / c) ∧
    (∀ i, ((mvnDiv A c).toMVN A).loc i = A.loc i / c) ∧
    (∀ i j, ((mvnDiv A c).toMVN A).covar i j = A.covar i j / c ^ 2) ∧
    mvnMulOp A (PyVal.int n) = Except.ok (mvnMulScalar A (n : α)) ∧
    mvnMulOp A (PyVal.float c) = Except.ok (mvnMulScalar A c) ∧
    mvnMulOp A (PyVal.nonScalar) = Except.error "Can only multiply by scalars" := by
  refine ⟨?_, ?_, rfl, ?_, ?_, rfl, rfl, rfl⟩
  · intro i
    by_cases hc : c = 1
    · subst hc; simp [mvnMulScalar, ScaleResult.toMVN]
    · simp [mvnMulScalar, hc, ScaleResult.toMVN]
  · intro i j
    by_cases hc : c = 1
    · subst hc; simp [mvnMulScalar, ScaleResult.toMVN]
    · simp [mvnMulScalar, hc, ScaleResult.toMVN]
  · intro i
    by_cases hc : c = 1
    · subst hc; simp [mvnDiv, mvnMulScalar, ScaleResult.toMVN]
    · have h2 : ¬(1 : α) / c = 1 := by simpa [one_div, inv_eq_one] using hc
      simp [mvnDiv, mvnMulScalar, h2, hc, ScaleResult.toMVN, div_eq_mul_inv, one_div]
  · intro i j
    by_cases hc : c = 1
    · subst hc; simp [mvnDiv, mvnMulScalar, ScaleResult.toMVN]
    · have h2 : ¬(1 : α) / c = 1 := by simpa [one_div, inv_eq_one] using hc
      simp [mvnDiv, mvnMulScalar, h2, hc, ScaleResult.toMVN, div_eq_mul_inv, one_div,
        mul_pow, inv_pow]

/-- C10: multiplying by the exact scalar 1 and left-adding the exact
scalar 0 both return `self` — the `same` result, with no fresh instance
constructed. -/
theorem mul_one_radd_zero_identity {α : Type} [Field α] [DecidableEq α] {d : Nat}
    (A : GaussianMVN α d) :
    mvnMulScalar A 1 = ScaleResult.same ∧ mvnRadd A 0 = ScaleResult.same := by
  constructor
  · simp [mvnMulScalar]
  · simp [mvnRadd]

/-- C4 (amended): `rsample` with explicit `base_samples` raises the shape
error exactly when the trailing `loc.dim()` dimensions of `base_samples`
differ from the mean tensor's full shape (batch dimensions of the mean
included), not merely its event shape; when they agree the leading
dimensions are the inferred sample shape, i.e. `base_samples.shape`
decomposes as `sample_shape ++ loc.shape`.  For a 1-dimensional mean the
guard coincides with the claimed event-shape condition. -/
theorem rsample_base_check_claim (locShape bsShape : Shape) :
    (rsampleBaseCheckOK locShape bsShape = true ↔
      lastDims bsShape locShape.length = locShape) ∧
    (rsampleBaseCheckOK locShape bsShape = true →
      inferredSampleShape locShape bsShape ++ lastDims bsShape locShape.length = bsShape) ∧
    (rsampleBaseCheckOK locShape bsShape = true →
      inferredSampleShape locShape bsShape ++ locShape = bsShape) ∧
    (locShape.length = 1 →
      (rsampleBaseCheckOK locShape bsShape = true ↔
        lastDims bsShape 1 = eventShape locShape)) := by
  have hiff : rsampleBaseCheckOK locShape bsShape = true ↔
      lastDims bsShape locShape.length = locShape := by
    simp [rsampleBaseCheckOK]
  have hsplit : inferredSampleShape locShape bsShape ++
      lastDims bsShape locShape.length = bsShape := by
    simp only [inferredSampleShape, lastDims]
    exact List.take_append_drop (bsShape.length - locShape.length) bsShape
  refine ⟨hiff, fun _ => hsplit, fun h => ?_, fun hlen => ?_⟩
  · have := hiff.mp h
    calc inferredSampleShape locShape bsShape ++ locShape
        = inferredSampleShape locShape bsShape ++ lastDims bsShape locShape.length := by
          rw [this]
      _ = bsShape := hsplit
  · have hev : eventShape locShape = locShape := by
      simp [eventShape, lastDims, hlen]
    rw [hev, ← hlen]
    exact hiff

/-- C4 counterexample: for a mean of shape `[2, 3]` (event shape `[3]`)
and base samples of shape `[5, 3]`, the trailing dimension matches the
event shape, yet the guard raises — the claimed "exactly when the
trailing dimensions do not match event_shape" is false on the code. -/
theorem rsample_base_check_counterexample :
    lastDims [5, 3] 1 = eventShape [2, 3] ∧
    rsampleBaseCheckOK [2, 3] [5, 3] = false := by decide

/-- C4 witness: the amended guard characterisation instantiated at a
1-dimensional mean of shape `[3]` and base samples of shape `[5, 3]`. -/
theorem rsample_base_check_claim_witness :
    inferredSampleShape [3] [5, 3] ++ [3] = [5, 3] ∧
    (rsampleBaseCheckOK [3] [5, 3] = true ↔ lastDims [5, 3] 1 = eventShape [3]) :=
  ⟨(rsample_base_check_claim [3] [5, 3]).2.2.1 (by decide),
   (rsample_base_check_claim [3] [5, 3]).2.2.2 (by decide)⟩

theorem broadcastDim_self (a : Nat) : broadcastDim a a = some a := by
  by_cases h : a = 1 <;> simp [broadcastDim, h]

theorem broadcastRev_append_same (xs : List Nat) (ys zs : List Nat) :
    broadcastRev (xs ++ ys) (xs ++ zs) =
      (broadcastRev ys zs).map (fun r => xs ++ r) := by
  induction xs with
  | nil => cases h : broadcastRev ys zs <;> simp [h]
  | cons x xs ih =>
    cases h : broadcastRev ys zs <;>
      simp [broadcastRev, broadcastDim_self, ih, h]

/-- C7 (amended): both sampling entry points return shape
`S ++ loc.shape` — the mean tensor's full shape, not the event shape
(the two coincide exactly for 1-dimensional means).  For `rsample` with
base samples of shape `S ++ loc.shape` this needs a nonempty mean shape
of nonzero element count and a root factor of rank at most the event
dimension; for `sample`/`rsample` without base samples (line 177:
`sample` delegates to `rsample`) it needs a covariance whose batch
dimensions equal the mean's and a sample shape of nonzero element
count. -/
theorem rsample_shape_claim (locShape S : Shape) (rootCols n : Nat) :
    (locShape.getLast? = some n → locShape.prod ≠ 0 → rootCols ≤ n →
      rsampleWithBaseShape locShape rootCols (S ++ locShape) =
        some (S ++ locShape)) ∧
    (S.prod ≠ 0 →
      rsampleNoBaseShape locShape (locShape ++ [n]) S = some (S ++ locShape)) := by
  constructor
  · intro hlast hprod hle
    have hcheck : rsampleBaseCheckOK locShape (S ++ locShape) = true := by
      simp [rsampleBaseCheckOK, lastDims]
    have hdrop : lastDims (S ++ locShape) locShape.length = locShape := by
      simp [lastDims]
    have htake : inferredSampleShape locShape (S ++ locShape) = S := by
      simp [inferredSampleShape]
    rw [rsampleWithBaseShape, if_pos hcheck, hlast]
    simp [hprod, htake, Nat.not_lt.mpr hle]
  · intro hS
    have hnum : (if S.prod = 0 then 1 else S.prod) = S.prod := if_neg hS
    have hdropLast : (locShape ++ [n]).dropLast = locShape := by
      simp
    have hbr : broadcastShape (S.prod :: locShape) (1 :: locShape) =
        some (S.prod :: locShape) := by
      have h1 : broadcastDim S.prod 1 = some S.prod := by
        by_cases h : S.prod = 1 <;> simp [broadcastDim, h]
      unfold broadcastShape
      simp only [List.reverse_cons]
      rw [broadcastRev_append_same locShape.reverse [S.prod] [1]]
      simp [broadcastRev, h1]
    rw [rsampleNoBaseShape]
    simp only [hnum, zeroMeanSamplesShape, hdropLast, hbr]
    simp [List.prod_append]

/-- C7 counterexample: for a mean of shape `[2, 3]` (event shape `[3]`)
with a full-rank root, `rsample` with base samples of shape
`[] ++ event_shape = [3]` raises instead of returning a tensor of shape
`[] ++ event_shape`. -/
theorem rsample_shape_counterexample :
    ¬ rsampleWithBaseShape [2, 3] 3 ([] ++ eventShape [2, 3]) =
        some ([] ++ eventShape [2, 3]) := by decide

/-- C7 witness: the amended shape result at a mean of shape `[3]`,
sample shape `[2]`, event dimension 3 and a rank-3 root. -/
theorem rsample_shape_claim_witness :
    rsampleWithBaseShape [3] 3 ([2] ++ [3]) = some ([2] ++ [3]) ∧
    rsampleNoBaseShape [3] ([3] ++ [3]) [2] = some ([2] ++ [3]) :=
  ⟨(rsample_shape_claim [3] [2] 3 3).1 (by decide) (by decide) (by decide),
   (rsample_shape_claim [3] [2] 3 3).2 (by decide)⟩

/-- C3 (amended): with `combine_terms=False` and no added losses the
result is exactly a 3-tuple, with one registered added loss a 4-tuple;
the combined scalar is `log_likelihood − kl + log_prior − added_loss`
where `log_prior` is the once-per-`num_data`-scaled prior accumulation —
but the uncombined tuple's third entry is `log_prior` divided by
`num_data` a second time, so the combined scalar equals the signed sum
of the tuple entries only after rescaling that entry by `num_data`. -/
theorem elbo_forward_claim {α : Type} [Field α] (nd beta llTerm klRaw numBatch x : α)
    (priorLogProbs : List α) (hnd : nd ≠ 0) :
    (elboForward ⟨nd, beta, false⟩ llTerm klRaw numBatch [] priorLogProbs =
      ELBOOutput.parts3 (llTerm / numBatch) (klRaw / (nd / beta))
        (((priorLogProbs.map (fun p => p / nd)).sum) / nd)) ∧
    (elboForward ⟨nd, beta, false⟩ llTerm klRaw numBatch [x] priorLogProbs =
      ELBOOutput.parts4 (llTerm / numBatch) (klRaw / (nd / beta))
        (((priorLogProbs.map (fun p => p / nd)).sum) / nd) x) ∧
    (elboForward ⟨nd, beta, true⟩ llTerm klRaw numBatch [x] priorLogProbs =
      ELBOOutput.combined (llTerm / numBatch - klRaw / (nd / beta) +
        nd * ((((priorLogProbs.map (fun p => p / nd)).sum) / nd)) - x)) := by
  refine ⟨by simp [elboForward], by simp [elboForward], ?_⟩
  have hP : nd * ((priorLogProbs.map (fun p => p / nd)).sum / nd) =
      (priorLogProbs.map (fun p => p / nd)).sum := by
    rw [mul_comm]
    exact div_mul_cancel₀ _ hnd
  simp [elboForward, hP]

/-- C3 counterexample: with `num_data = 2` and a single prior whose
log-probability sum is 2 (no added losses), the combined scalar is 1 but
the uncombined tuple is `(0, 0, 1/2)`, whose signed sum is 1/2 — the
claimed equality between the combined scalar and the signed sum of the
uncombined terms fails. -/
theorem elbo_forward_counterexample :
    elboForward (⟨2, 1, true⟩ : ELBOState ℚ) 0 0 1 [] [2] = ELBOOutput.combined 1 ∧
    elboForward (⟨2, 1, false⟩ : ELBOState ℚ) 0 0 1 [] [2] =
      ELBOOutput.parts3 0 0 (1 / 2) ∧
    (1 : ℚ) ≠ 0 - 0 + 1 / 2 - 0 := by
  refine ⟨?_, ?_, by norm_num⟩ <;> simp [elboForward]

/-- C3 witness: the amended ELBO relation instantiated over `ℚ` with
`num_data = 2`, `beta = 1`, likelihood term 4 over 2 batch elements, raw
KL 6, one added loss 5 and one prior of log-probability 2. -/
theorem elbo_forward_claim_witness :
    (elboForward (⟨2, 1, false⟩ : ELBOState ℚ) 4 6 2 [] [2] =
      ELBOOutput.parts3 (4 / 2) (6 / (2 / 1))
        ((([2].map (fun p => p / 2)).sum) / 2)) ∧
    (elboForward (⟨2, 1, false⟩ : ELBOState ℚ) 4 6 2 [5] [2] =
      ELBOOutput.parts4 (4 / 2) (6 / (2 / 1))
        ((([2].map (fun p => p / 2)).sum) / 2) 5) ∧
    (elboForward (⟨2, 1, true⟩ : ELBOState ℚ) 4 6 2 [5] [2] =
      ELBOOutput.combined (4 / 2 - 6 / (2 / 1) +
        2 * (((([2].map (fun p => p / 2)).sum) / 2)) - 5)) :=
  elbo_forward_claim 2 1 4 6 2 5 [2] (by norm_num)

/-- C5: when the root's rank `k` is strictly smaller than the number `n`
of supplied base-sample rows, the extra rows are discarded — the result
only depends on the first `k` rows, and the computation proceeds; when
the rank is strictly larger, `rsample` fails and returns no result. -/
theorem rsample_rank_adjust_claim {α : Type} [CommRing α] {n k N : Nat}
    (loc : Fin n → α) (R : Matrix (Fin n) (Fin k) α)
    (base base2 : Matrix (Fin n) (Fin N) α) :
    (k < n →
      (∀ (l : Fin n) (j : Fin N), (l : Nat) < k → base l j = base2 l j) →
      rsampleReparamCore loc R base = rsampleReparamCore loc R base2 ∧
      (rsampleReparamCore loc R base).isSome = true) ∧
    (n < k → rsampleReparamCore loc R base = none) := by
  constructor
  · intro hkn hagree
    have hnk : ¬ n < k := by omega
    constructor
    · rw [rsampleReparamCore, dif_neg hnk, rsampleReparamCore, dif_neg hnk]
      congr 1
      funext i j
      congr 1
      refine Finset.sum_congr rfl (fun l _ => ?_)
      rw [hagree (Fin.castLE (Nat.not_lt.mp hnk) l) j l.isLt]
    · rw [rsampleReparamCore, dif_neg hnk]
      rfl
  · intro hnk
    rw [rsampleReparamCore, dif_pos hnk]

/-- C5 witness: event dimension 2, root rank 1, one sample column; the
two base-sample matrices agree on the first row and differ on the
discarded second row. -/
theorem rsample_rank_adjust_claim_witness :
    rsampleReparamCore (fun _ => (0 : ℚ)) !![2; 3] !![5; 7] =
      rsampleReparamCore (fun _ => (0 : ℚ)) !![2; 3] !![5; 11] ∧
    (rsampleReparamCore (fun _ => (0 : ℚ)) !![2; 3] !![5; 7]).isSome = true :=
  (rsample_rank_adjust_claim (fun _ => (0 : ℚ)) !![2; 3] !![5; 7] !![5; 11]).1
    (by decide) (by decide)

theorem expandOKRev_self (l : List Nat) : expandOKRev l l = true := by
  induction l with
  | nil => rfl
  | cons x xs ih => simp [expandOKRev, ih]

theorem broadcastDim_expand {x y d : Nat} (h : broadcastDim x y = some d) :
    x = 1 ∨ d = x := by
  unfold broadcastDim at h
  split_ifs at h with h1 h2 h3
  · exact Or.inl h1
  · exact Or.inr (by injection h; omega)
  · exact Or.inr (by injection h; omega)

theorem broadcastRev_expandOKRev :
    ∀ {ra rb ro : List Nat}, broadcastRev ra rb = some ro →
      expandOKRev ra ro = true := by
  intro ra
  induction ra with
  | nil => intro rb ro _; rfl
  | cons x xs ih =>
    intro rb ro h
    cases rb with
    | nil =>
      simp only [broadcastRev] at h
      injection h with h
      rw [← h]
      exact expandOKRev_self (x :: xs)
    | cons y ys =>
      simp only [broadcastRev, Option.bind_eq_bind, Option.bind_eq_some] at h
      obtain ⟨dxy, hd, rest, hrest, hro⟩ := h
      simp only [Option.pure_def, Option.some.injEq] at hro
      rw [← hro]
      have h1 : (x == dxy || x == 1) = true := by
        rcases broadcastDim_expand hd with h1 | h1
        · simp [h1]
        · simp [h1]
      simp [expandOKRev, h1, ih hrest]

theorem broadcast_expandOK {a b o : Shape} (h : broadcastShape a b = some o) :
    expandOK a o = true := by
  unfold broadcastShape at h
  cases hbr : broadcastRev a.reverse b.reverse with
  | none =>
    rw [hbr] at h
    exact absurd h (by simp)
  | some ro =>
    rw [hbr] at h
    simp only [Option.map_some'] at h
    injection h with h
    have : o.reverse = ro := by rw [← h, List.reverse_reverse]
    rw [expandOK, this]
    exact broadcastRev_expandOKRev hbr

theorem trace_row_quad {d : Nat} (A : Matrix (Fin d) (Fin d) ℝ) (v : Fin d → ℝ) :
    (Matrix.row (Fin 1) v * A * Matrix.col (Fin 1) v).trace =
      Matrix.dotProduct v (A.mulVec v) := by
  rw [Matrix.mul_assoc, ← Matrix.col_mulVec, Matrix.trace_mul_comm,
    Matrix.trace_col_mul_row, Matrix.dotProduct_comm]

theorem trace_fromBlocks_diag {m₁ m₂ : Type} [Fintype m₁] [Fintype m₂]
    (A : Matrix m₁ m₁ ℝ) (B : Matrix m₁ m₂ ℝ) (C : Matrix m₂ m₁ ℝ)
    (D : Matrix m₂ m₂ ℝ) :
    (Matrix.fromBlocks A B C D).trace = A.trace + D.trace := by
  simp [Matrix.trace, Matrix.diag, Fintype.sum_sum_type, Matrix.fromBlocks]

/-- C1: on the fast structured path (`fast_computations.log_prob` on),
`log_prob(value)` is `-0.5 (diffᵀ Σ⁻¹ diff + log det Σ + d log 2π)`
with `diff = value - mean` and `d` the event dimension, the quadratic
form and log-determinant coming from the one fused `inv_quad_logdet`
call; with the setting off it delegates to the dense base formula. -/
theorem log_prob_claim {d : Nat} (mean : Fin d → ℝ)
    (S : Matrix (Fin d) (Fin d) ℝ) (value : Fin d → ℝ) :
    logProbModel false mean S value =
      -0.5 * (Matrix.dotProduct (fun i => value i - mean i)
          (S⁻¹.mulVec (fun i => value i - mean i))
        + Real.log S.det + d * Real.log (2 * Real.pi)) ∧
    logProbModel true mean S value = denseLogProb mean S value := by
  constructor
  · simp only [logProbModel, Bool.false_eq_true, if_false, inv_quad_logdet]
    rw [Matrix.transpose_col, trace_row_quad]
  · simp [logProbModel]

theorem broadcastDim_expand_right {x y d : Nat} (h : broadcastDim x y = some d) :
    y = 1 ∨ d = y := by
  unfold broadcastDim at h
  split_ifs at h with h1 h2 h3
  · exact Or.inr (by injection h; omega)
  · exact Or.inl h2
  · exact Or.inr (by injection h; omega)

theorem broadcastRev_expandOKRev_right :
    ∀ {ra rb ro : List Nat}, broadcastRev ra rb = some ro →
      expandOKRev rb ro = true := by
  intro ra
  induction ra with
  | nil =>
    intro rb ro h
    simp only [broadcastRev] at h
    injection h with h
    rw [← h]
    exact expandOKRev_self rb
  | cons x xs ih =>
    intro rb ro h
    cases rb with
    | nil => rfl
    | cons y ys =>
      simp only [broadcastRev, Option.bind_eq_bind, Option.bind_eq_some] at h
      obtain ⟨dxy, hd, rest, hrest, hro⟩ := h
      simp only [Option.pure_def, Option.some.injEq] at hro
      rw [← hro]
      have h1 : (y == dxy || y == 1) = true := by
        rcases broadcastDim_expand_right hd with h1 | h1
        · simp [h1]
        · simp [h1]
      simp [expandOKRev, h1, ih hrest]

theorem broadcast_expandOK_right {a b o : Shape} (h : broadcastShape a b = some o) :
    expandOK b o = true := by
  unfold broadcastShape at h
  cases hbr : broadcastRev a.reverse b.reverse with
  | none =>
    rw [hbr] at h
    exact absurd h (by simp)
  | some ro =>
    rw [hbr] at h
    simp only [Option.map_some'] at h
    injection h with h
    have ho : o.reverse = ro := by rw [← h, List.reverse_reverse]
    rw [expandOK, ho]
    exact broadcastRev_expandOKRev_right hbr

/-- C2: the registered KL divergence first expands both inputs to the
common broadcast batch shape (the `expand` calls succeed on any
broadcast-compatible pair), and for a reconciled pair returns
`0.5 (logdet Σq − logdet Σp + (tr(Σq⁻¹Σp) + diffᵀ Σq⁻¹ diff) − d)`,
where the combined quadratic-form/trace term comes from the single fused
`inv_quad_logdet` call against `q`'s operator with right-hand side
`[mean_diff, R_p]`; in particular for `p = N([0],[[1]])` and
`q = N([1],[[1]])` the result is exactly `0.5`. -/
theorem kl_mvn_claim :
    (∀ (pb qb o : Shape), broadcastShape pb qb = some o →
      klBatchShapes pb qb = some (o, o) ∧
      expandOK pb o = true ∧ expandOK qb o = true) ∧
    (∀ (d k : Nat) (p q : GaussianMVN ℝ d) (Rp : Matrix (Fin d) (Fin k) ℝ),
      p.covar = Rp * Rp.transpose →
      klMvnMvn p q Rp =
        0.5 * (Real.log q.covar.det - Real.log p.covar.det +
          ((q.covar⁻¹ * p.covar).trace +
            Matrix.dotProduct (fun i => p.loc i - q.loc i)
              (q.covar⁻¹.mulVec (fun i => p.loc i - q.loc i))) - (d : ℝ))) ∧
    klMvnMvn (d := 1) (k := 1) ⟨fun _ => 0, 1⟩ ⟨fun _ => 1, 1⟩ 1 = 0.5 := by
  refine ⟨?_, ?_, ?_⟩
  · intro pb qb o h
    exact ⟨by simp [klBatchShapes, h], broadcast_expandOK h, broadcast_expandOK_right h⟩
  · intro d k p q Rp hroot
    simp only [klMvnMvn, inv_quad_logdet]
    have h2 : (Rp.transpose * q.covar⁻¹ * Rp).trace = (q.covar⁻¹ * p.covar).trace := by
      rw [Matrix.mul_assoc, Matrix.trace_mul_comm, Matrix.mul_assoc, ← hroot]
    rw [Matrix.transpose_fromColumns, Matrix.transpose_col, Matrix.fromRows_mul,
      Matrix.fromRows_mul_fromColumns, trace_fromBlocks_diag, trace_row_quad, h2]
    ring
  · simp only [klMvnMvn, inv_quad_logdet, inv_one, Matrix.mul_one, Matrix.one_mul,
      Matrix.det_one, Real.log_one]
    rw [Matrix.transpose_fromColumns, Matrix.transpose_col, Matrix.transpose_one,
      Matrix.fromRows_mul_fromColumns, Matrix.mul_one, trace_fromBlocks_diag,
      Matrix.trace_fin_one]
    simp only [Matrix.row_mul_col_apply, Matrix.dotProduct, Fin.sum_univ_one,
      Matrix.trace_one]
    norm_num

/-- C2 witness: the batch reconciliation at shapes `[2, 1]` and `[3]`,
and the closed-form identity applied to identical unit Gaussians, for
which the KL divergence evaluates to 0. -/
theorem kl_mvn_claim_witness :
    klBatchShapes [2, 1] [3] = some ([2, 3], [2, 3]) ∧
    klMvnMvn (d := 1) (k := 1) ⟨fun _ => 0, 1⟩ ⟨fun _ => 0, 1⟩ 1 = 0 := by
  constructor
  · exact (kl_mvn_claim.1 [2, 1] [3] [2, 3] (by decide)).1
  · have h := kl_mvn_claim.2.1 1 1 ⟨fun _ => 0, 1⟩ ⟨fun _ => 0, 1⟩ 1
      (by simp)
    rw [h]
    simp [Matrix.dotProduct, Matrix.trace_one]

theorem expandMapRev_ok :
    ∀ (os ss ridx : List Nat), expandOKRev os ss = true →
      List.Forall₂ (fun i n => i < n) ridx ss →
      List.Forall₂ (fun i n => i < n) (expandMapRev os ridx) os := by
  intro os
  induction os with
  | nil => intro ss ridx _ _; exact List.Forall₂.nil
  | cons o os ih =>
    intro ss ridx h hf
    cases ss with
    | nil => cases h
    | cons s ss2 =>
      cases hf with
      | cons h₁ h₂ =>
        simp only [expandOKRev, Bool.and_eq_true, Bool.or_eq_true, beq_iff_eq] at h
        refine List.Forall₂.cons ?_ (ih ss2 _ h.2 h₂)
        by_cases ho : o = 1
        · simp [ho]
        · have hos : o = s := by
            rcases h.1 with h1 | h1
            · exact h1
            · exact absurd h1 ho
          simp only [if_neg ho]
          rw [hos]
          exact h₁

theorem tensor_expand_some (t : Tensor) (s : Shape)
    (h : expandOK t.shape s = true) :
    ∃ t2, t.expand s = some t2 ∧ t2.shape = s ∧ EntriesFrom t2 t := by
  refine ⟨⟨s, fun idx => t.data (expandMap t.shape idx)⟩, ?_, rfl, ?_⟩
  · rw [Tensor.expand, if_pos h]
  · intro idx hidx
    refine ⟨expandMap t.shape idx, ?_, rfl⟩
    have h1 : List.Forall₂ (fun i n => i < n) idx.reverse s.reverse :=
      List.forall₂_reverse_iff.mpr hidx
    have h2 := expandMapRev_ok t.shape.reverse s.reverse idx.reverse h h1
    have h3 := List.forall₂_reverse_iff.mpr h2
    simpa [IdxOK, expandMap] using h3

theorem repeatMapRev_ok :
    ∀ (os fs ridx : List Nat), os.length ≤ fs.length →
      (∀ o ∈ os, 0 < o) →
      List.Forall₂ (fun i n => i < n) ridx (repeatShapeRev fs os) →
      List.Forall₂ (fun i n => i < n) (repeatMapRev os ridx) os := by
  intro os
  induction os with
  | nil => intro fs ridx _ _ _; exact List.Forall₂.nil
  | cons o os ih =>
    intro fs ridx hlen hpos hf
    cases fs with
    | nil => simp at hlen
    | cons f fs2 =>
      cases hf with
      | cons h₁ h₂ =>
        refine List.Forall₂.cons ?_
          (ih fs2 _ (by simpa using hlen) (fun x hx => hpos x (List.mem_cons_of_mem o hx)) h₂)
        exact Nat.mod_lt _ (hpos o (List.mem_cons_self o os))

theorem tensor_repeatT_some (t : Tensor) (f : List Nat)
    (hlen : t.shape.length ≤ f.length) (hpos : ∀ x ∈ t.shape, 0 < x) :
    ∃ t2, t.repeatT f = some t2 ∧
      t2.shape = (repeatShapeRev f.reverse t.shape.reverse).reverse ∧
      EntriesFrom t2 t := by
  refine ⟨⟨(repeatShapeRev f.reverse t.shape.reverse).reverse,
      fun idx => t.data ((repeatMapRev t.shape.reverse idx.reverse).reverse)⟩,
    ?_, rfl, ?_⟩
  · rw [Tensor.repeatT, if_pos hlen]
  · intro idx hidx
    refine ⟨(repeatMapRev t.shape.reverse idx.reverse).reverse, ?_, rfl⟩
    have h1 : List.Forall₂ (fun i n => i < n) idx.reverse
        (repeatShapeRev f.reverse t.shape.reverse) := by
      have := List.forall₂_reverse_iff.mpr hidx
      simpa using this
    have h2 := repeatMapRev_ok t.shape.reverse f.reverse idx.reverse (by simpa using hlen)
      (fun x hx => hpos x (by simpa using hx)) h1
    have h3 := List.forall₂_reverse_iff.mpr h2
    simpa [IdxOK] using h3

theorem zipWith_reverse_eq {α β γ : Type} (f : α → β → γ) :
    ∀ (l₁ : List α) (l₂ : List β), l₁.length = l₂.length →
      (List.zipWith f l₁ l₂).reverse = List.zipWith f l₁.reverse l₂.reverse := by
  intro l₁
  induction l₁ with
  | nil =>
    intro l₂ h
    cases l₂ with
    | nil => rfl
    | cons b t₂ => simp at h
  | cons a t ih =>
    intro l₂ h
    cases l₂ with
    | nil => simp at h
    | cons b t₂ =>
      simp only [List.zipWith_cons_cons, List.reverse_cons]
      rw [ih t₂ (by simp only [List.length_cons] at h; omega),
        List.zipWith_append _ _ _ _ _
          (by simp only [List.length_reverse]; simp only [List.length_cons] at h; omega)]
      simp

theorem repeatShapeRev_pad_ones :
    ∀ (fs os : List Nat), os.length ≤ fs.length →
      repeatShapeRev fs (os ++ List.replicate (fs.length - os.length) 1) =
        repeatShapeRev fs os := by
  intro fs
  induction fs with
  | nil =>
    intro os h
    have : os = [] := List.length_eq_zero.mp (Nat.le_zero.mp h)
    subst this
    rfl
  | cons f fs2 ih =>
    intro os h
    cases os with
    | nil =>
      have h0 : (f :: fs2).length - ([] : List Nat).length = fs2.length + 1 := by simp
      rw [h0]
      simp only [List.nil_append, List.replicate, repeatShapeRev, Nat.mul_one]
      congr 1
      have h2 := ih [] (Nat.zero_le _)
      simpa using h2
    | cons o os2 =>
      simp only [List.cons_append, repeatShapeRev]
      congr 1
      have hlen2 : (f :: fs2).length - (o :: os2).length = fs2.length - os2.length := by
        simp
      rw [hlen2]
      exact ih os2 (by simp only [List.length_cons] at h; omega)

theorem repeatShapeRev_div_iff :
    ∀ (rdb rpad : List Nat), rdb.length = rpad.length →
      (∀ c ∈ rpad, 0 < c) →
      (repeatShapeRev (List.zipWith (fun a b => a / b) rdb rpad) rpad = rdb ↔
        List.Forall₂ (fun c dd => c ∣ dd) rpad rdb) := by
  intro rdb
  induction rdb with
  | nil =>
    intro rpad h _
    cases rpad with
    | nil => simp [repeatShapeRev]
    | cons => simp at h
  | cons d ds ih =>
    intro rpad h hpos
    cases rpad with
    | nil => simp at h
    | cons c cs =>
      have hc : 0 < c := hpos c (List.mem_cons_self c cs)
      have hrest := ih cs (by simpa using h)
        (fun x hx => hpos x (List.mem_cons_of_mem c hx))
      simp only [List.zipWith_cons_cons, repeatShapeRev]
      constructor
      · intro he
        injection he with h1 h2
        refine List.Forall₂.cons ⟨d / c, ?_⟩ (hrest.mp h2)
        rw [Nat.mul_comm]
        exact h1.symm
      · intro hf
        cases hf with
        | cons h1 h2 =>
          rw [Nat.div_mul_cancel h1, hrest.mpr h2]

/-- C6: in `log_prob`, when the batch shape of `diff` differs from the
covariance operator's batch shape, the reconciliation expands `diff` (to
`covar.shape[:-1]`) when the covariance has the larger batch rank, and
otherwise tiles the covariance with per-dimension factor
`diff_size // covar_size` against the 1-padded covariance batch shape;
the tiled batch shape equals `diff`'s batch shape exactly when each diff
batch size is divisible by the corresponding padded covariance batch
size; and in both cases every entry of the reconciled tensor is an entry
of the original — a pure repeat/broadcast that never produces new
values. -/
theorem log_prob_reconcile_claim (diff covar : Tensor) (db cb : Shape)
    (n m1 m2 : Nat) (hd : diff.shape = db ++ [n]) (hc : covar.shape = cb ++ [m1, m2])
    (hpos : ∀ x ∈ covar.shape, 0 < x) :
    (db.length < cb.length →
      ∀ d2 c2, logProbReconcile diff covar = some (d2, c2) →
        c2 = covar ∧ d2.shape = covar.shape.dropLast ∧ EntriesFrom d2 diff) ∧
    (¬ db.length < cb.length → db ≠ cb →
      ∃ c2, logProbReconcile diff covar = some (diff, c2) ∧ EntriesFrom c2 covar ∧
        (c2.shape = db ++ [m1, m2] ↔
          List.Forall₂ (fun cs ds => cs ∣ ds)
            (List.replicate (db.length - cb.length) 1 ++ cb) db)) := by
  have hdb : diff.shape.dropLast = db := by
    rw [hd]; exact List.dropLast_concat ..
  have hcb : covar.shape.dropLast.dropLast = cb := by
    have h12 : cb ++ [m1, m2] = (cb ++ [m1]) ++ [m2] := by simp
    rw [hc, h12, List.dropLast_concat, List.dropLast_concat]
  constructor
  · intro hlt d2 c2 hrec
    have hne : db ≠ cb := by
      intro hEq; rw [hEq] at hlt; omega
    have hbeq : (diff.shape.dropLast == covar.shape.dropLast.dropLast) = false := by
      rw [hdb, hcb]
      exact beq_eq_false_iff_ne.mpr hne
    rw [logProbReconcile, hbeq] at hrec
    simp only [Bool.false_eq_true, if_false] at hrec
    rw [hdb, hcb, if_pos hlt] at hrec
    cases hx : diff.expand covar.shape.dropLast with
    | none => rw [hx] at hrec; simp at hrec
    | some d2x =>
      rw [hx] at hrec
      simp only [Option.map_some', Option.some.injEq, Prod.mk.injEq] at hrec
      obtain ⟨hda, hca⟩ := hrec
      cases hok : expandOK diff.shape covar.shape.dropLast with
      | false => rw [Tensor.expand, hok] at hx; simp at hx
      | true =>
        obtain ⟨t2, ht2eq, ht2sh, ht2ent⟩ := tensor_expand_some diff _ hok
        rw [ht2eq] at hx
        injection hx with hx
        subst hx
        subst hda
        exact ⟨hca.symm, ht2sh, ht2ent⟩
  · intro hge hne
    have hbeq : (diff.shape.dropLast == covar.shape.dropLast.dropLast) = false := by
      rw [hdb, hcb]
      exact beq_eq_false_iff_ne.mpr hne
    have hlen1 : diff.shape.length = db.length + 1 := by simp [hd]
    have hlen2 : covar.shape.length = cb.length + 2 := by simp [hc]
    have hlge : cb.length ≤ db.length := Nat.not_lt.mp hge
    have hkk : diff.shape.length + 1 - covar.shape.length = db.length - cb.length := by
      omega
    set padded : Shape := List.replicate (db.length - cb.length) 1 ++ cb with hpadded
    have hpadlen : padded.length = db.length := by
      simp [hpadded]; omega
    set factors : List Nat :=
      List.zipWith (fun ds cs => ds / cs) db padded ++ [1, 1] with hfactors
    have hflen : factors.length = db.length + 2 := by
      simp [hfactors, hpadlen]
    have hrlen : covar.shape.length ≤ factors.length := by omega
    obtain ⟨c2, hc2eq, hc2sh, hc2ent⟩ := tensor_repeatT_some covar factors hrlen hpos
    refine ⟨c2, ?_, hc2ent, ?_⟩
    · rw [logProbReconcile, hbeq]
      simp only [Bool.false_eq_true, if_false]
      rw [hdb, hcb, if_neg hge, hkk, ← hpadded, ← hfactors, hc2eq]
      rfl
    · have hppos : ∀ x ∈ padded.reverse, 0 < x := by
        intro x hx
        rw [List.mem_reverse, hpadded] at hx
        rcases List.mem_append.mp hx with hx | hx
        · rw [List.eq_of_mem_replicate hx]; omega
        · exact hpos x (by rw [hc]; exact List.mem_append.mpr (Or.inl hx))
      have hzlen : db.reverse.length = padded.reverse.length := by
        simp [hpadlen]
      have hfrev : factors.reverse =
          1 :: 1 :: (List.zipWith (fun ds cs => ds / cs) db padded).reverse := by
        rw [hfactors]
        simp
      have hcrev : covar.shape.reverse = m2 :: m1 :: cb.reverse := by
        rw [hc]
        simp
      have hzrev : (List.zipWith (fun ds cs => ds / cs) db padded).reverse =
          List.zipWith (fun ds cs => ds / cs) db.reverse padded.reverse :=
        zipWith_reverse_eq _ db padded (by omega)
      have hzwlen : (List.zipWith (fun ds cs => ds / cs) db.reverse padded.reverse).length
          = db.length := by
        simp
        omega
      have hpadrev : padded.reverse =
          cb.reverse ++ List.replicate (db.length - cb.length) 1 := by
        rw [hpadded]
        simp [List.reverse_replicate]
      have hpad2 : ∀ (Z : List Nat), Z.length = db.length →
          repeatShapeRev Z padded.reverse = repeatShapeRev Z cb.reverse := by
        intro Z hZlen
        rw [hpadrev]
        have he : db.length - cb.length = Z.length - cb.reverse.length := by
          rw [hZlen]
          simp
        rw [he]
        exact repeatShapeRev_pad_ones Z cb.reverse (by rw [hZlen]; simpa using hlge)
      rw [hc2sh, hfrev, hcrev]
      simp only [repeatShapeRev, Nat.one_mul, List.reverse_cons, List.append_assoc,
        List.singleton_append]
      rw [hzrev, ← hpad2 _ hzwlen, List.append_left_inj, List.reverse_eq_iff,
        repeatShapeRev_div_iff db.reverse padded.reverse hzlen hppos,
        List.forall₂_reverse_iff]

/-- C6 witness: diff of shape `[4, 2]` (batch `[4]`) against a
covariance of shape `[2, 2, 2]` (batch `[2]`): the tiling branch fires,
divisibility `2 ∣ 4` holds, and the covariance is tiled to batch
`[4]`. -/
theorem log_prob_reconcile_claim_witness :
    ∃ c2, logProbReconcile ⟨[4, 2], fun _ => (0 : ℝ)⟩ ⟨[2, 2, 2], fun _ => 0⟩ =
        some (⟨[4, 2], fun _ => (0 : ℝ)⟩, c2) ∧
      EntriesFrom c2 ⟨[2, 2, 2], fun _ => 0⟩ ∧
      (c2.shape = [4] ++ [2, 2] ↔
        List.Forall₂ (fun cs ds => cs ∣ ds)
          (List.replicate (([4] : Shape).length - ([2] : Shape).length) 1 ++ [2]) [4]) :=
  (log_prob_reconcile_claim ⟨[4, 2], fun _ => 0⟩ ⟨[2, 2, 2], fun _ => 0⟩ [4] [2] 2 2 2
    rfl rfl (by decide)).2 (by decide) (by decide)

/-- C8 (amended): `expand` on a structured-mode Gaussian returns a new
instance of the same class with the mean expanded to
`target ++ loc.shape[-1:]` and the covariance expanded to
`target ++ covar.shape[-2:]` (entries a pure broadcast of the
originals), failing with the shape error exactly when a target is not
expand-compatible.  On a dense-mode Gaussian an incompatible target
still fails with the shape error — raised while expanding the mean on
line 63 — but a compatible target fails with an attribute error instead
of returning a new instance, because the dense constructor branch never
stores the `_covar` attribute that line 64 reads after the mean has been
expanded. -/
theorem expand_claim (mean covariance : Tensor) (bs : Shape) :
    (expandOK mean.shape (bs ++ lastDims mean.shape 1) = true →
      mvnExpand (mvnInit mean covariance false) bs =
        Except.error ExpandErr.attrErr) ∧
    (expandOK mean.shape (bs ++ lastDims mean.shape 1) = false →
      mvnExpand (mvnInit mean covariance false) bs =
        Except.error ExpandErr.shapeMismatch) ∧
    (expandOK mean.shape (bs ++ lastDims mean.shape 1) = true →
      expandOK covariance.shape (bs ++ lastDims covariance.shape 2) = true →
      ∃ l2 c2, mvnExpand (mvnInit mean covariance true) bs =
          Except.ok (mvnInit l2 c2 true) ∧
        l2.shape = bs ++ lastDims mean.shape 1 ∧ EntriesFrom l2 mean ∧
        c2.shape = bs ++ lastDims covariance.shape 2 ∧ EntriesFrom c2 covariance) ∧
    (¬(expandOK mean.shape (bs ++ lastDims mean.shape 1) = true ∧
        expandOK covariance.shape (bs ++ lastDims covariance.shape 2) = true) →
      mvnExpand (mvnInit mean covariance true) bs =
        Except.error ExpandErr.shapeMismatch) := by
  have hredF : mvnExpand (mvnInit mean covariance false) bs =
      match mean.expand (bs ++ lastDims mean.shape 1) with
      | none => Except.error ExpandErr.shapeMismatch
      | some _ => Except.error ExpandErr.attrErr := rfl
  have hredT : mvnExpand (mvnInit mean covariance true) bs =
      match mean.expand (bs ++ lastDims mean.shape 1) with
      | none => Except.error ExpandErr.shapeMismatch
      | some l2 =>
        match covariance.expand (bs ++ lastDims covariance.shape 2) with
        | some c2 => Except.ok (mvnInit l2 c2 true)
        | none => Except.error ExpandErr.shapeMismatch := rfl
  refine ⟨?_, ?_, ?_, ?_⟩
  · intro h1
    obtain ⟨l2, hl2eq, _, _⟩ := tensor_expand_some mean _ h1
    rw [hredF, hl2eq]
  · intro h1
    have hmnone : mean.expand (bs ++ lastDims mean.shape 1) = none := by
      rw [Tensor.expand, h1]
      rfl
    rw [hredF, hmnone]
  · intro h1 h2
    obtain ⟨l2, hl2eq, hl2sh, hl2ent⟩ := tensor_expand_some mean _ h1
    obtain ⟨c2, hc2eq, hc2sh, hc2ent⟩ := tensor_expand_some covariance _ h2
    refine ⟨l2, c2, ?_, hl2sh, hl2ent, hc2sh, hc2ent⟩
    rw [hredT, hl2eq, hc2eq]
  · intro hnot
    by_cases ha : expandOK mean.shape (bs ++ lastDims mean.shape 1) = true
    · have hb : expandOK covariance.shape (bs ++ lastDims covariance.shape 2) = false := by
        cases hbv : expandOK covariance.shape (bs ++ lastDims covariance.shape 2) with
        | true => exact absurd ⟨ha, hbv⟩ hnot
        | false => rfl
      obtain ⟨l2, hl2eq, _, _⟩ := tensor_expand_some mean _ ha
      have hcnone : covariance.expand (bs ++ lastDims covariance.shape 2) = none := by
        rw [Tensor.expand, hb]
        rfl
      rw [hredT, hl2eq, hcnone]
    · have hae : expandOK mean.shape (bs ++ lastDims mean.shape 1) = false := by
        cases hav : expandOK mean.shape (bs ++ lastDims mean.shape 1) with
        | true => exact absurd hav ha
        | false => rfl
      have hmnone : mean.expand (bs ++ lastDims mean.shape 1) = none := by
        rw [Tensor.expand, hae]
        rfl
      rw [hredT, hmnone]

/-- C8 counterexample: a dense-mode Gaussian (mean shape `[3]`, dense
covariance shape `[3, 3]`) with the broadcast-compatible target `[2]`:
`expand` fails with the attribute error instead of returning a new
expanded instance. -/
theorem expand_counterexample :
    mvnExpand (mvnInit ⟨[3], fun _ => (0 : ℝ)⟩ ⟨[3, 3], fun _ => 0⟩ false) [2] =
      Except.error ExpandErr.attrErr ∧
    expandOK [3] ([2] ++ lastDims [3] 1) = true ∧
    expandOK [3, 3] ([2] ++ lastDims [3, 3] 2) = true :=
  ⟨rfl, by decide, by decide⟩

/-- C8 witness: the structured-mode expansion of a mean of shape `[3]`
and covariance of shape `[3, 3]` to target batch shape `[2]`. -/
theorem expand_claim_witness :
    ∃ l2 c2, mvnExpand (mvnInit ⟨[3], fun _ => (0 : ℝ)⟩ ⟨[3, 3], fun _ => 0⟩ true) [2] =
        Except.ok (mvnInit l2 c2 true) ∧
      l2.shape = [2] ++ lastDims [3] 1 ∧ EntriesFrom l2 ⟨[3], fun _ => (0 : ℝ)⟩ ∧
      c2.shape = [2] ++ lastDims [3, 3] 2 ∧ EntriesFrom c2 ⟨[3, 3], fun _ => 0⟩ :=
  (expand_claim ⟨[3], fun _ => 0⟩ ⟨[3, 3], fun _ => 0⟩ [2]).2.2.1 (by decide) (by decide)
